import Mathlib

/-!
Verification of the gmap-retrieval repository (dsgelab/gmap-retrieval).

This file shallowly embeds the parts of `gmap_retrieval/street_view.py` and
`gmap_retrieval/satellite.py` that the frozen claims are about, and settles
each claim against that embedding.

Modelling conventions:
* Python floats are modelled as exact numbers (ℕ, ℚ or ℝ).  All float
  quantities appearing in the claims (`1.5 * n`, `n * limit`, the zoom
  coverages, the geodesic formulas) are either exactly representable in
  binary floating point or are treated as real-valued mathematics, which is
  how the specification speaks about them.
* Unbounded network-retry loops are abstracted by their eventual result
  (each probed location has one final status string); the claims under
  study do not concern the retry loops themselves.
* Randomness is modelled by universally quantifying over an oracle that
  yields, per sampling round, the accepted (available) candidates.
-/

/-! ## Candidate sampler (street_view.py, collect_gsv_images_for_each_id,
lines 331-370)

The Python loop keeps per-round state `loc_valid` (accepted locations) and
`trial_count` (a float tallying `n_images * 1.5` per completed round).  Each
round draws `int(n_images * candidate_multiple)` candidate offsets (both the
`direction` and `distance` arrays have this length), probes them, and
assigns the available ones to `loc_valid`.  The accumulation statement
`loc_valid = loc_valid.append(loc_valid_new, ignore_index)` (line 352)
raises `NameError` on *every* round — the bare name `ignore_index` is
defined nowhere in the program — so the `except NameError` handler
(lines 353-354) runs each round and *replaces* `loc_valid` with the current
round's `loc_valid_new`, discarding prior rounds' acceptances.  The loop
exits with success when `len(loc_valid) >= n_needed_images` (truncating to
`n_needed_images`), and with a shortfall when
`n_images * limit < trial_count`.

We scale `trial_count` by 2 so that it stays in ℕ: the float increment
`n_images * 1.5` is exactly `3 * n_images / 2`, hence `trialCount2` grows by
`3 * nImages` per round and the float comparison
`n_images * limit < trial_count` is exactly `2 * nImages * limit < trialCount2`.
-/

/-- Number of candidates drawn per round: Python `int(n_images * 1.5)`.
`n_images * 1.5` is exact in binary floating point and `int` truncates,
so this is `⌊3 * nImages / 2⌋`. -/
def genCount (nImages : ℕ) : ℕ := 3 * nImages / 2

/-- Result of one run of the rejection-sampling loop: the accepted
locations, whether the target was reached (`enough = true` iff the loop
exited through the `len(loc_valid) >= n_needed_images` branch), the number
of candidates drawn in each executed round, and the final doubled trial
counter. -/
structure SamplerResult (α : Type) where
  accepted : List α
  enough : Bool
  drawnPerRound : List ℕ
  finalTrial2 : ℕ

/-- The `while True` rejection-sampling loop of
`collect_gsv_images_for_each_id` (street_view.py lines 336-370), with the
availability-filtered candidates of round `r` supplied by `oracle r`.
The incoming `loc_valid` accumulator is discarded every round: line 352
raises `NameError` (`ignore_index` is undefined) and the handler at
line 354 replaces `loc_valid` with the current round's acceptances.
`fuel` bounds the number of iterations; `sampleLoop_spec` below shows that
`limit + 2` fuel always suffices, i.e. the Python loop terminates. -/
def sampleLoop (nImages nNeeded limit : ℕ) (oracle : ℕ → List α) :
    ℕ → ℕ → List α → ℕ → Option (SamplerResult α)
  | 0, _, _, _ => none
  | fuel + 1, round, _locValid, trialCount2 =>
    let locValid2 := oracle round
    if nNeeded ≤ locValid2.length then
      some ⟨locValid2.take nNeeded, true, [genCount nImages], trialCount2⟩
    else if 2 * nImages * limit < trialCount2 then
      some ⟨locValid2, false, [genCount nImages], trialCount2⟩
    else
      match sampleLoop nImages nNeeded limit oracle fuel (round + 1) locValid2
          (trialCount2 + 3 * nImages) with
      | none => none
      | some res =>
        some ⟨res.accepted, res.enough, genCount nImages :: res.drawnPerRound,
          res.finalTrial2⟩

/-- Entry point of the sampler loop: `loc_valid` not yet bound (modelled
as `[]`; the first round's `NameError` handler assigns it anyway),
`trial_count = 0`, run with enough fuel for the trial budget (`limit + 2`
rounds always suffice when `nImages ≥ 1`, as proved in
`sampleLoop_spec`). -/
def runSampler (nImages nNeeded limit : ℕ) (oracle : ℕ → List α) :
    Option (SamplerResult α) :=
  sampleLoop nImages nNeeded limit oracle (limit + 2) 0 [] 0

/-! ## Availability probe (street_view.py, is_gsv_available, lines 154-214)

The network layer is abstracted by the final status string of each
location's metadata response (the code retries transport errors until a
response arrives).  The Python code preallocates `availability =
[False]*len(urls)`, walks the locations in order, sets entry `i` to
`status == 'OK'`, increments `count` on each available location, and
returns immediately once `count == limit` — leaving the unprobed suffix at
its initialized `False`. -/

/-- Availability of one location: `status == 'OK'` (street_view.py line 208). -/
def statusOK (s : String) : Bool := s == "OK"

/-- Number of "OK" statuses in a list. -/
def countOK (l : List String) : ℕ := l.countP statusOK

/-- The probing loop of `is_gsv_available` (lines 197-214): `count` is the
number of available locations seen so far; the returned list is the
preallocated `availability` array at the moment of return. -/
def gsvAux (limit : ℕ) : ℕ → List String → List Bool
  | _, [] => []
  | count, s :: rest =>
    let count2 := if statusOK s then count + 1 else count
    if count2 = limit then statusOK s :: List.replicate rest.length false
    else statusOK s :: gsvAux limit count2 rest

/-- Model of `is_gsv_available` (street_view.py lines 154-214): `limit = none`
models Python `limit=None`, which is replaced by the number of
locations. -/
def is_gsv_available (statuses : List String) (limit : Option ℕ) :
    List Bool :=
  gsvAux (limit.getD statuses.length) 0 statuses

/-! ## URL signer (street_view.py, sign_url, lines 17-66)

`urlparse`, `base64` and `hmac`/`hashlib` are external primitives; they are
modelled as explicit function parameters (`mac key msg` stands for
`hmac.new(key, msg, sha1).digest()`), so every theorem below holds for the
actual primitives in particular.  A URL is modelled pre-parsed into the
components `urlparse` extracts. -/

/-- The components of `urlparse` used by `sign_url`. -/
structure Url where
  scheme : String
  netloc : String
  path : String
  query : String

/-- The signed part: `url_to_sign = url.path + "?" + url.query` (line 46). -/
def urlToSign (u : Url) : String := u.path ++ "?" ++ u.query

/-- The rebuilt URL: `original_url = url.scheme + "://" + url.netloc + url.path + "?" +
url.query` (lines 59-60). -/
def originalUrl (u : Url) : String :=
  u.scheme ++ "://" ++ u.netloc ++ u.path ++ "?" ++ u.query

/-- Signing of one URL (loop body, lines 42-63). -/
def signOne (mac : String → String → String) (b64dec b64enc : String → String)
    (secret : String) (u : Url) : String :=
  originalUrl u ++ "&signature=" ++ b64enc (mac (b64dec secret) (urlToSign u))

/-- The full signed list produced by the loop (lines 41-63): entry `i` of
the preallocated `signed_urls` is the signature of input `i`. -/
def signedList (mac : String → String → String)
    (b64dec b64enc : String → String) (secret : String) (urls : List Url) :
    List String :=
  urls.map (signOne mac b64dec b64enc secret)

/-- Model of `sign_url` (street_view.py lines 17-66), including the
`input_urls is None or secret is None` check of lines 35-36. -/
def sign_url (mac : String → String → String)
    (b64dec b64enc : String → String) (input_urls : Option (List Url))
    (secret : Option String) : Except String (List String) :=
  match input_urls, secret with
  | none, _ => .error "Both input_urls and secret are required"
  | _, none => .error "Both input_urls and secret are required"
  | some us, some sec => .ok (signedList mac b64dec b64enc sec us)

/-! ## Resumable fetch (street_view.py, collect_gsv_images_for_each_id,
lines 310-439)

The per-ID directory is modelled by the set `pngs` of indices `j` for which
`image<j>.png` exists, together with a content map `ℕ → β`.  The fetch
phase walks the sampled locations; for each one it probes `j, j+1, ...`
for the first unused index (lines 407-414; `j` persists across
iterations), downloads the image (abstracted by `img`), writes it at the
fresh index, and finally appends one journal row per new artifact to
`loc.csv` (lines 428-439, modelled as the returned list of rows). -/

/-- The `while True` filename probe (lines 408-414), with fuel.
`findFree_spec` shows `s.card + 1` fuel always suffices. -/
def findFreeAux (s : Finset ℕ) : ℕ → ℕ → Option ℕ
  | 0, _ => none
  | fuel + 1, j => if j ∈ s then findFreeAux s fuel (j + 1) else some j

/-- First unused artifact index at or after `j`. -/
def findFree (s : Finset ℕ) (j : ℕ) : Option ℕ :=
  findFreeAux s (s.card + 1) j

/-- The download-and-save loop (lines 405-426): returns the list of newly
written artifact indices, the new set of existing artifacts, and the new
content map. -/
def gsvFetchPhase {α β : Type} (img : α → β) :
    List α → Finset ℕ → (ℕ → β) → ℕ →
    Option (List ℕ × Finset ℕ × (ℕ → β))
  | [], s, c, _ => some ([], s, c)
  | lo :: rest, s, c, j =>
    match findFree s j with
    | none => none
    | some j2 =>
      match gsvFetchPhase img rest (insert j2 s) (Function.update c j2 (img lo))
          j2 with
      | none => none
      | some (names, s2, c2) => some (j2 :: names, s2, c2)

/-- The resume logic of `collect_gsv_images_for_each_id` (lines 316-332 and
405-439): if the directory already holds `n_images` artifacts the task is a
no-op; otherwise the fetch phase runs on the sampled locations `locs` and
one journal row per new artifact is appended. -/
def collect_resume {α β : Type} (img : α → β) (nImages : ℕ)
    (pngs : Finset ℕ) (content : ℕ → β) (locs : List α) :
    Option (Finset ℕ × (ℕ → β) × List (ℕ × α)) :=
  if pngs.card = nImages then some (pngs, content, [])
  else
    match gsvFetchPhase img locs pngs content 0 with
    | none => none
    | some (names, s2, c2) => some (s2, c2, names.zip locs)

/-! ## Zoom selection (satellite.py, find_zoom_level, lines 10-53)

Float arithmetic is modelled over ℝ.  For each latitude the inner loop
scans `zoom = 0, 1, ..., 21` (the variable `best_zoom` is initialized to 1
and never reassigned, so `range(best_zoom-1, 22)` is always
`range(0, 22)`), keeping `prev_ratio`/`prev_horizontal_coverage_in_km`
while the coverage is still above the ideal one and breaking at the first
zoom whose coverage is `≤` the ideal one.  If the loop breaks at zoom 0 or
never breaks, Python reads the uninitialized (or stale) `prev_ratio` /
`ratio`; both situations are modelled as `none` and excluded by the
bracketing hypotheses of the theorems below. -/

/-- Source formula `meter_per_pixel = 156543.03392 * np.cos(lat * np.pi / 180) / (2**zoom)`
(satellite.py line 38). -/
noncomputable def metersPerPixel (lat : ℝ) (zoom : ℕ) : ℝ :=
  156543.03392 * Real.cos (lat * Real.pi / 180) / 2 ^ zoom

/-- Source formula `horizontal_coverage_in_km = meter_per_pixel * horizontal_size / 1000`
(satellite.py line 39); `P` is the pixel width `horizontal_size`. -/
noncomputable def coverage (lat P : ℝ) (zoom : ℕ) : ℝ :=
  metersPerPixel lat zoom * P / 1000

/-- The pair `(prev_ratio, prev_horizontal_coverage_in_km)` recorded at a
zoom whose coverage is still above the ideal coverage `C` (lines 41-42). -/
noncomputable def prevOf (lat P C : ℝ) (z : ℕ) : ℝ × ℝ :=
  ((coverage lat P z / C) ^ 2, coverage lat P z)

/-- The inner `for zoom in range(0, 22)` loop of `find_zoom_level`
(lines 37-51) together with the selection after the break (lines 46-51):
returns `(chosen zoom, actual coverage)`.  `none` models the Python
`NameError` on an uninitialized `prev_ratio`/`ratio` (break at zoom 0, or
no break within 0..21). -/
noncomputable def zoomLoop (lat P C : ℝ) :
    ℕ → ℕ → Option (ℝ × ℝ) → Option (ℕ × ℝ)
  | 0, _, _ => none
  | fuel + 1, z, prev =>
    if C < coverage lat P z then
      zoomLoop lat P C fuel (z + 1) (some (prevOf lat P C z))
    else
      match prev with
      | none => none
      | some pr =>
        if (C / coverage lat P z) ^ 2 ≤ pr.1 then some (z, coverage lat P z)
        else some (z - 1, pr.2)

/-- Model of `find_zoom_level` restricted to a single latitude. -/
noncomputable def findZoomSingle (lat P C : ℝ) : Option (ℕ × ℝ) :=
  zoomLoop lat P C 22 0 none

/-- Model of `find_zoom_level` (satellite.py lines 10-53): latitudes are paired
with their original indices, processed in ascending latitude order
(line 30; a stable sort), and each per-latitude result is written back at
the original index into the preallocated result array (lines 47-51). -/
noncomputable def find_zoom_level (lats : List ℝ) (C P : ℝ) :
    List (Option (ℕ × ℝ)) :=
  ((lats.zip (List.range lats.length)).insertionSort
      (fun a b => a.1 ≤ b.1)).foldl
    (fun acc p => acc.set p.2 (findZoomSingle p.1 P C))
    (List.replicate lats.length none)

/-! ## Geodesic destination (street_view.py, get_lat_lon, lines 68-152)

Locations are modelled as already-parsed `(latitude, longitude)` pairs in
degrees (the Python strings are "comma-separated {latitude,longitude}
pairs").  `numpy.arctan2` is modelled by the argument of the complex
number `x + y*I`, which agrees with it away from the measure-zero branch
cut convention for negative zero.  Python's float `%` with a positive
modulus is `x - y*floor(x/y)`, captured by `realMod`. -/

/-- Python float `x % y` (for `y > 0`): `x - y * ⌊x / y⌋`. -/
noncomputable def realMod (x y : ℝ) : ℝ := x - y * ⌊x / y⌋

/-- Model of `np.arctan2 y x`: the angle of the point `(x, y)` in `(-π, π]`. -/
noncomputable def arctan2 (y x : ℝ) : ℝ :=
  Complex.arg (Complex.ofReal x + Complex.ofReal y * Complex.I)

/-- The vectorized core of `get_lat_lon` (street_view.py lines 135-150)
applied to one element: origin `p` (degrees), distance `dKm` (km), bearing
`tc` (radians); returns the destination in degrees. -/
noncomputable def destPair (p : ℝ × ℝ) (dKm tc : ℝ) : ℝ × ℝ :=
  let d := dKm / 6371
  let lat1 := p.1 * Real.pi / 180
  let lon1 := p.2 * Real.pi / 180
  let lat := Real.arcsin (Real.sin lat1 * Real.cos d +
    Real.cos lat1 * Real.sin d * Real.cos tc)
  let dlon := arctan2 (Real.sin tc * Real.sin d * Real.cos lat1)
    (Real.cos d - Real.sin lat1 * Real.sin lat)
  let lon := realMod (lon1 - dlon + Real.pi) (2 * Real.pi) - Real.pi
  (lat * 180 / Real.pi, lon * 180 / Real.pi)

/-- A Python argument that is either a scalar or array-like
(`hasattr(x, '__len__')`, with strings counting as scalars here). -/
inductive ScalarOrList (α : Type) where
  | scalar (a : α)
  | list (l : List α)

/-- The ways `get_lat_lon` can raise.  `mismatch` covers the three
explicit `ValueError`s of lines 97-111; `distance` / `direction` are the
range `ValueError`s of lines 124-129; `parse` is the `ValueError` raised
at line 131 when `loc` was left as a raw scalar string by the broadcast
step (lines 118-120 wrap `d` and `tc` but not `loc`), so the string is
iterated character-by-character and the ragged result cannot be converted
to a float array; `empty` is the `IndexError` at line 140 when the
location list is empty. -/
inductive GeoErr where
  | mismatch
  | distance
  | direction
  | parse
  | empty

/-- The shape-validation and broadcasting steps of `get_lat_lon`
(street_view.py lines 96-120).  Note the faithful quirk: in the
all-scalar case Python wraps `d` and `tc` in singleton lists but leaves
`loc` a scalar (lines 118-120). -/
def broadcastArgs : ScalarOrList (ℝ × ℝ) → ScalarOrList ℝ → ScalarOrList ℝ →
    Except GeoErr (ScalarOrList (ℝ × ℝ) × List ℝ × List ℝ)
  | _, .list _, .scalar _ => .error .mismatch
  | .list ll, .list dl, .list tl =>
    if dl.length = tl.length then
      if ll.length = dl.length then .ok (.list ll, dl, tl)
      else .error .mismatch
    else .error .mismatch
  | .scalar l0, .list dl, .list tl =>
    if dl.length = tl.length then
      .ok (.list (List.replicate dl.length l0), dl, tl)
    else .error .mismatch
  | .list _, .scalar _, _ => .error .mismatch
  | .scalar l0, .scalar dd, .scalar tt => .ok (.scalar l0, [dd], [tt])
  | .scalar l0, .scalar dd, .list tl => .ok (.scalar l0, [dd], tl)

/-- Model of `get_lat_lon` (street_view.py lines 68-152): shape validation and
broadcasting, the two range checks (`d > 40075/2` at line 124,
`tc ∉ [0, 2π]` at line 128), then the parse of the location strings
(line 131) and the vectorized geodesic computation (lines 135-150). -/
noncomputable def get_lat_lon (loc : ScalarOrList (ℝ × ℝ))
    (d tc : ScalarOrList ℝ) : Except GeoErr (List (ℝ × ℝ)) :=
  match broadcastArgs loc d tc with
  | .error e => .error e
  | .ok (locB, dl, tl) =>
    if dl.any (fun x => decide ((40075 : ℝ) / 2 < x)) then .error .distance
    else if tl.any (fun t => decide (t < 0 ∨ 2 * Real.pi < t)) then
      .error .direction
    else
      match locB with
      | .scalar _ => .error .parse
      | .list [] => .error .empty
      | .list ll => .ok (List.zipWith (fun p q => destPair p q.1 q.2) ll
          (dl.zip tl))

/-- One-step unfolding of `sampleLoop` (used to control recursion depth in
proofs).  The incoming accumulator does not occur on the right-hand side:
the source replaces it with the current round's acceptances every round. -/
theorem sampleLoop_succ {α : Type} (nImages nNeeded limit : ℕ)
    (oracle : ℕ → List α) (fuel round : ℕ) (locValid : List α)
    (trialCount2 : ℕ) :
    sampleLoop nImages nNeeded limit oracle (fuel + 1) round locValid
      trialCount2 =
      (if nNeeded ≤ (oracle round).length then
        some ⟨(oracle round).take nNeeded, true,
          [genCount nImages], trialCount2⟩
      else if 2 * nImages * limit < trialCount2 then
        some ⟨oracle round, false, [genCount nImages], trialCount2⟩
      else
        match sampleLoop nImages nNeeded limit oracle fuel (round + 1)
            (oracle round) (trialCount2 + 3 * nImages) with
        | none => none
        | some res =>
          some ⟨res.accepted, res.enough, genCount nImages :: res.drawnPerRound,
            res.finalTrial2⟩) := rfl

/-- Characterization of the rejection-sampling loop: with fuel covering the
trial budget the loop returns a result; the result exits either through the
target-reached branch (with exactly `nNeeded` accepted locations) or through
the exceeded-budget branch (with fewer than `nNeeded` accepted locations);
accepted locations all come from the final executed round's oracle output
(prior rounds' acceptances are discarded by the `NameError` handler); and
every executed round draws exactly `genCount nImages` candidates. -/
theorem sampleLoop_spec {α : Type} (nImages nNeeded limit : ℕ)
    (oracle : ℕ → List α) (Q : α → Prop) (hQ : ∀ r x, x ∈ oracle r → Q x) :
    ∀ fuel round locValid trialCount2,
      2 * nImages * limit < trialCount2 + 3 * nImages * fuel →
      ∃ res,
        sampleLoop nImages nNeeded limit oracle (fuel + 1) round locValid
          trialCount2 = some res ∧
        ((res.enough = true ∧ res.accepted.length = nNeeded) ∨
          (res.enough = false ∧ res.accepted.length < nNeeded ∧
            2 * nImages * limit < res.finalTrial2)) ∧
        (∀ x ∈ res.accepted, Q x) ∧
        (∀ c ∈ res.drawnPerRound, c = genCount nImages) ∧
        res.drawnPerRound ≠ [] := by
  intro fuel
  induction fuel with
  | zero =>
    intro round locValid trialCount2 hbudget
    simp only [Nat.mul_zero, Nat.add_zero] at hbudget
    rw [sampleLoop_succ]
    by_cases h1 : nNeeded ≤ (oracle round).length
    · rw [if_pos h1]
      refine ⟨_, rfl, Or.inl ⟨rfl, ?_⟩, ?_, ?_, ?_⟩
      · simp only [List.length_take]
        omega
      · intro x hx
        exact hQ round x (List.take_subset _ _ hx)
      · intro c hc
        simpa using hc
      · simp
    · rw [if_neg h1, if_pos hbudget]
      refine ⟨_, rfl, Or.inr ⟨rfl, Nat.lt_of_not_le h1, hbudget⟩, ?_, ?_, ?_⟩
      · intro x hx
        exact hQ round x hx
      · intro c hc
        simpa using hc
      · simp
  | succ fuel ih =>
    intro round locValid trialCount2 hbudget
    rw [sampleLoop_succ]
    by_cases h1 : nNeeded ≤ (oracle round).length
    · rw [if_pos h1]
      refine ⟨_, rfl, Or.inl ⟨rfl, ?_⟩, ?_, ?_, ?_⟩
      · simp only [List.length_take]
        omega
      · intro x hx
        exact hQ round x (List.take_subset _ _ hx)
      · intro c hc
        simpa using hc
      · simp
    · rw [if_neg h1]
      by_cases h2 : 2 * nImages * limit < trialCount2
      · rw [if_pos h2]
        refine ⟨_, rfl, Or.inr ⟨rfl, Nat.lt_of_not_le h1, h2⟩, ?_, ?_, ?_⟩
        · intro x hx
          exact hQ round x hx
        · intro c hc
          simpa using hc
        · simp
      · rw [if_neg h2]
        have hb2 : 2 * nImages * limit <
            (trialCount2 + 3 * nImages) + 3 * nImages * fuel := by
          have : 3 * nImages * (fuel + 1) =
              3 * nImages + 3 * nImages * fuel := by ring
          omega
        obtain ⟨res, heq, hdisj, hmem, hdrawn, -⟩ :=
          ih (round + 1) (oracle round) (trialCount2 + 3 * nImages) hb2
        rw [heq]
        refine ⟨_, rfl, hdisj, hmem, ?_, ?_⟩
        · intro c hc
          rcases List.mem_cons.mp hc with h | h
          · exact h
          · exact hdrawn c h
        · simp

/-- C1: for every requested count `nImages ≥ 1`, trial limit `limit` and
any availability behaviour (oracle), the rejection-sampling loop of
`collect_gsv_images_for_each_id` terminates: it either reaches the target
(returning exactly `nNeeded` accepted locations, the truncation of the
accepted set `loc_valid`) or exceeds the `n_images * limit` trial budget
(returning the partial, possibly empty, accepted set, every element of
which was produced by the availability oracle — no points are
fabricated).  Because line 352's `NameError` replacement discards prior
rounds, the accepted set `loc_valid` always holds the final executed
round's acceptances. -/
theorem sampler_terminates {α : Type} (nImages nNeeded limit : ℕ)
    (oracle : ℕ → List α) (hn : 1 ≤ nImages) :
    ∃ res, runSampler nImages nNeeded limit oracle = some res ∧
      ((res.enough = true ∧ res.accepted.length = nNeeded) ∨
        (res.enough = false ∧ res.accepted.length < nNeeded ∧
          2 * nImages * limit < res.finalTrial2)) ∧
      (∀ x ∈ res.accepted, ∃ r, x ∈ oracle r) := by
  have hbudget : 2 * nImages * limit < 0 + 3 * nImages * (limit + 1) := by
    have h1 : 2 * nImages * limit ≤ 3 * nImages * limit :=
      Nat.mul_le_mul_right limit (by omega)
    have h2 : 3 * nImages * (limit + 1) = 3 * nImages * limit + 3 * nImages := by
      ring
    omega
  obtain ⟨res, heq, hdisj, hmem, -, -⟩ :=
    sampleLoop_spec nImages nNeeded limit oracle (fun x => ∃ r, x ∈ oracle r)
      (fun r x hx => ⟨r, hx⟩) (limit + 1) 0 [] 0 hbudget
  exact ⟨res, heq, hdisj, hmem⟩

/-- Witness for C1: a probe that never reports availability, target 1,
limit 2 — the theorem applies and the sampler terminates with a shortfall. -/
theorem sampler_terminates_witness :
    1 ≤ 1 ∧
    ∃ res, runSampler 1 1 2 (fun _ => ([] : List ℕ)) = some res ∧
      ((res.enough = true ∧ res.accepted.length = 1) ∨
        (res.enough = false ∧ res.accepted.length < 1 ∧
          2 * 1 * 2 < res.finalTrial2)) ∧
      (∀ x ∈ res.accepted, ∃ r, x ∈ (fun _ : ℕ => ([] : List ℕ)) r) :=
  ⟨le_refl 1, sampler_terminates 1 1 2 (fun _ => []) (le_refl 1)⟩

/-- C3 counterexample: with requested count `N = 3` the code draws
`int(3 * 1.5) = 4` candidates in the first round, not `ceil(3 * 1.5) = 5`
as the claim states; and after the first round accepts one candidate
(deficit 2) the second round again draws 4 candidates, not
`2 * 1.5 = 3`.  The concrete run below (limit 0, oracle accepting one
candidate in round 0 and none afterwards) draws `[4, 4]`; it ends with an
empty accepted set because the second round's `NameError` replacement
discards the first round's acceptance. -/
theorem candidate_count_claim_false :
    runSampler 3 3 0 (fun r => if r = 0 then [()] else []) =
      some ⟨[], false, [4, 4], 9⟩ ∧ genCount 3 ≠ 5 ∧ genCount 3 ≠ 3 := by
  refine ⟨rfl, by decide, by decide⟩

/-- C3 amended: every executed round of the rejection-sampling loop —
first and subsequent alike — draws exactly `int(n_images * 1.5)`
(= `⌊3 * nImages / 2⌋`) candidate offsets; the draw size is based on the
full target count and never on the remaining deficit (the Python variable
`count` tracking the deficit is updated but never used for generation). -/
theorem candidate_count_per_round {α : Type} (nImages nNeeded limit : ℕ)
    (oracle : ℕ → List α) (hn : 1 ≤ nImages) :
    ∃ res, runSampler nImages nNeeded limit oracle = some res ∧
      res.drawnPerRound ≠ [] ∧
      ∀ c ∈ res.drawnPerRound, c = 3 * nImages / 2 := by
  have hbudget : 2 * nImages * limit < 0 + 3 * nImages * (limit + 1) := by
    have h1 : 2 * nImages * limit ≤ 3 * nImages * limit :=
      Nat.mul_le_mul_right limit (by omega)
    have h2 : 3 * nImages * (limit + 1) = 3 * nImages * limit + 3 * nImages := by
      ring
    omega
  obtain ⟨res, heq, -, -, hdrawn, hne⟩ :=
    sampleLoop_spec nImages nNeeded limit oracle (fun _ => True)
      (fun _ _ _ => trivial) (limit + 1) 0 [] 0 hbudget
  exact ⟨res, heq, hne, hdrawn⟩

/-- Witness for C3's amended theorem at `nImages = 3`. -/
theorem candidate_count_per_round_witness :
    1 ≤ 3 ∧
    ∃ res, runSampler 3 3 10 (fun _ => ([] : List ℕ)) = some res ∧
      res.drawnPerRound ≠ [] ∧
      ∀ c ∈ res.drawnPerRound, c = 3 * 3 / 2 :=
  ⟨by decide, candidate_count_per_round 3 3 10 (fun _ => []) (by decide)⟩

/-- Characterization of the probing loop `gsvAux`: there is a probed
position `k` such that the output is the status map of the probed first
`k` elements padded with the initialized `false` entries, and either the
loop stopped at `k` because the running available count (initial `c` plus
the "OK"s among the probed elements) first reached `limit` there, or the
whole list was probed without the count ever reaching `limit`. -/
theorem gsvAux_spec (limit : ℕ) :
    ∀ (l : List String) (c : ℕ),
      ∃ k, k ≤ l.length ∧
        gsvAux limit c l =
          (l.take k).map statusOK ++ List.replicate (l.length - k) false ∧
        ((1 ≤ k ∧ c + countOK (l.take k) = limit ∧
            ∀ j, 1 ≤ j → j < k → c + countOK (l.take j) ≠ limit) ∨
          (k = l.length ∧
            ∀ j, 1 ≤ j → j ≤ l.length → c + countOK (l.take j) ≠ limit)) := by
  intro l
  induction l with
  | nil =>
    intro c
    refine ⟨0, Nat.le_refl 0, by simp [gsvAux], Or.inr ⟨rfl, ?_⟩⟩
    intro j hj1 hj2
    simp only [List.length_nil] at hj2
    omega
  | cons s rest ih =>
    intro c
    have hcount : ∀ j : ℕ,
        countOK ((s :: rest).take (j + 1)) =
          countOK (rest.take j) + if statusOK s then 1 else 0 := by
      intro j
      simp [countOK, List.take_succ_cons, List.countP_cons]
    by_cases h : (if statusOK s then c + 1 else c) = limit
    · refine ⟨1, by simp, ?_, Or.inl ⟨Nat.le_refl 1, ?_, ?_⟩⟩
      · simp [gsvAux, h]
      · have := hcount 0
        simp only [List.take_zero] at this
        rw [this]
        simp only [countOK, List.countP_nil]
        by_cases hs : statusOK s <;> simp [hs] at h ⊢ <;> omega
      · intro j hj1 hj2
        omega
    · obtain ⟨k, hk, heq, hcond⟩ := ih (if statusOK s then c + 1 else c)
      refine ⟨k + 1, by simpa using hk, ?_, ?_⟩
      · simp only [gsvAux, h, if_neg h]
        rw [heq]
        simp [List.take_succ_cons]
      · have hshift : ∀ j : ℕ,
            c + countOK ((s :: rest).take (j + 1)) =
              (if statusOK s then c + 1 else c) + countOK (rest.take j) := by
          intro j
          rw [hcount j]
          by_cases hs : statusOK s <;> simp [hs] <;> omega
        rcases hcond with ⟨hk1, hsum, hmin⟩ | ⟨hkl, hnone⟩
        · refine Or.inl ⟨by omega, ?_, ?_⟩
          · rw [hshift k]
            exact hsum
          · intro j hj1 hj2
            match j, hj1 with
            | 1, _ =>
              show c + countOK (List.take (0 + 1) (s :: rest)) ≠ limit
              rw [hshift 0]
              simpa [countOK] using h
            | j' + 2, _ =>
              rw [hshift (j' + 1)]
              exact hmin (j' + 1) (by omega) (by omega)
        · refine Or.inr ⟨by simp [hkl], ?_⟩
          intro j hj1 hj2
          match j, hj1 with
          | 1, _ =>
            show c + countOK (List.take (0 + 1) (s :: rest)) ≠ limit
            rw [hshift 0]
            simpa [countOK] using h
          | j' + 2, _ =>
            rw [hshift (j' + 1)]
            refine hnone (j' + 1) (by omega) ?_
            simp only [List.length_cons] at hj2
            omega

/-- C4: `is_gsv_available` marks a location available exactly when its
metadata status is "OK" (any other status yields `false`, never an error —
the function is total), probes the candidates in order, and stops as soon
as the number of available results reaches `limit`: the returned list is
the status map of the probed `k`-element prefix, padded back to full
length with the initialized `false` entries for the unprobed remainder
(so only the probed prefix carries real results), where `k` is the first
position at which `limit` "OK"s have been seen, or the whole list if that
never happens. -/
theorem is_gsv_available_spec (statuses : List String) (limit : ℕ) :
    ∃ k, k ≤ statuses.length ∧
      is_gsv_available statuses (some limit) =
        (statuses.take k).map statusOK ++
          List.replicate (statuses.length - k) false ∧
      (is_gsv_available statuses (some limit)).length = statuses.length ∧
      ((1 ≤ k ∧ countOK (statuses.take k) = limit ∧
          ∀ j, 1 ≤ j → j < k → countOK (statuses.take j) ≠ limit) ∨
        (k = statuses.length ∧
          ∀ j, 1 ≤ j → j ≤ statuses.length →
            countOK (statuses.take j) ≠ limit)) := by
  obtain ⟨k, hk, heq, hcond⟩ := gsvAux_spec limit statuses 0
  simp only [Nat.zero_add] at hcond
  refine ⟨k, hk, heq, ?_, hcond⟩
  have : is_gsv_available statuses (some limit) = gsvAux limit 0 statuses := rfl
  rw [this, heq]
  simp only [List.length_append, List.length_map, List.length_take,
    List.length_replicate]
  omega

/-- C8: `sign_url` is deterministic and stateless.  With the external
primitives (`hmac`/`sha1`, base64 decode/encode) fixed, present inputs
always produce `ok` of the element-wise signed list, and signing the same
URL list twice in one batch yields the same signatures both times (the
loop carries no state between iterations). -/
theorem sign_url_deterministic (mac : String → String → String)
    (b64dec b64enc : String → String) (urls : List Url) (secret : String) :
    sign_url mac b64dec b64enc (some urls) (some secret) =
      Except.ok (signedList mac b64dec b64enc secret urls) ∧
    signedList mac b64dec b64enc secret (urls ++ urls) =
      signedList mac b64dec b64enc secret urls ++
        signedList mac b64dec b64enc secret urls := by
  exact ⟨rfl, List.map_append _ _ _⟩

/-- The filename probe returns a fresh index whenever its fuel exceeds the
number of existing artifacts at or after the probe start. -/
theorem findFreeAux_some (s : Finset ℕ) :
    ∀ fuel j, (s.filter (fun m => j ≤ m)).card < fuel →
      ∃ j2, findFreeAux s fuel j = some j2 ∧ j ≤ j2 ∧ j2 ∉ s := by
  intro fuel
  induction fuel with
  | zero => intro j h; omega
  | succ fuel ih =>
    intro j h
    by_cases hj : j ∈ s
    · have hss : s.filter (fun m => j + 1 ≤ m) ⊂ s.filter (fun m => j ≤ m) := by
        refine Finset.ssubset_iff_of_subset ?_ |>.mpr ⟨j, ?_, ?_⟩
        · intro m hm
          simp only [Finset.mem_filter] at hm ⊢
          exact ⟨hm.1, by omega⟩
        · simp only [Finset.mem_filter]
          exact ⟨hj, Nat.le_refl j⟩
        · simp only [Finset.mem_filter, not_and]
          intro
          omega
      have hcard := Finset.card_lt_card hss
      obtain ⟨j2, heq, hle, hfresh⟩ := ih (j + 1) (by omega)
      refine ⟨j2, ?_, by omega, hfresh⟩
      simpa [findFreeAux, hj] using heq
    · exact ⟨j, by simp [findFreeAux, hj], Nat.le_refl j, hj⟩

/-- The probe `findFree` always succeeds and returns an index not yet on disk. -/
theorem findFree_spec (s : Finset ℕ) (j : ℕ) :
    ∃ j2, findFree s j = some j2 ∧ j ≤ j2 ∧ j2 ∉ s := by
  refine findFreeAux_some s (s.card + 1) j ?_
  have := Finset.card_filter_le s (fun m => j ≤ m)
  omega

/-- Characterization of the fetch phase: it writes one artifact per
sampled location, at indices that are pairwise distinct and unused before
the run, never modifying the content of a pre-existing artifact, and the
artifact count grows by exactly the number of sampled locations. -/
theorem gsvFetchPhase_spec {α β : Type} (img : α → β) :
    ∀ (locs : List α) (s : Finset ℕ) (c : ℕ → β) (j : ℕ),
      ∃ names s2 c2,
        gsvFetchPhase img locs s c j = some (names, s2, c2) ∧
        names.length = locs.length ∧
        names.Nodup ∧
        (∀ i ∈ names, i ∉ s) ∧
        (∀ i ∈ s, c2 i = c i) ∧
        s2.card = s.card + locs.length := by
  intro locs
  induction locs with
  | nil =>
    intro s c j
    exact ⟨[], s, c, rfl, rfl, List.nodup_nil, by simp, fun i _ => rfl, by simp⟩
  | cons lo rest ih =>
    intro s c j
    obtain ⟨j2, hfind, -, hfresh⟩ := findFree_spec s j
    obtain ⟨names, s2, c2, heq, hlen, hnodup, hfreshAll, hpres, hcard⟩ :=
      ih (insert j2 s) (Function.update c j2 (img lo)) j2
    refine ⟨j2 :: names, s2, c2, ?_, by simp [hlen], ?_, ?_, ?_, ?_⟩
    · simp only [gsvFetchPhase, hfind, heq]
    · refine List.nodup_cons.mpr ⟨?_, hnodup⟩
      intro hmem
      exact hfreshAll j2 hmem (Finset.mem_insert_self j2 s)
    · intro i hi
      rcases List.mem_cons.mp hi with h | h
      · exact h ▸ hfresh
      · intro hin
        exact hfreshAll i h (Finset.mem_insert_of_mem hin)
    · intro i hi
      have hne : i ≠ j2 := fun h => hfresh (h ▸ hi)
      rw [hpres i (Finset.mem_insert_of_mem hi)]
      exact Function.update_noteq hne _ c
    · rw [hcard, Finset.card_insert_of_not_mem hfresh]
      simp [Nat.add_assoc, Nat.add_comm 1 rest.length]

/-- C5: resume behaviour of `collect_gsv_images_for_each_id`.  If the
directory already holds the target number of artifacts the task is a
no-op that writes nothing; if it holds `k < n` artifacts and the sampler
supplied `n - k` locations, the run writes exactly `n - k` new artifacts
(at indices that did not exist before, so pre-existing artifacts are
never overwritten and their contents are unchanged), appends exactly
`n - k` journal rows, and ends with exactly `n` artifacts on disk. -/
theorem resume_fetch {α β : Type} (img : α → β) (n : ℕ) (pngs : Finset ℕ)
    (content : ℕ → β) (locs : List α) :
    (pngs.card = n →
      collect_resume img n pngs content locs = some (pngs, content, [])) ∧
    (0 < pngs.card → pngs.card < n → locs.length = n - pngs.card →
      ∃ s2 c2 rows,
        collect_resume img n pngs content locs = some (s2, c2, rows) ∧
        rows.length = n - pngs.card ∧
        (∀ p ∈ rows, p.1 ∉ pngs) ∧
        (∀ i ∈ pngs, c2 i = content i) ∧
        s2.card = n) := by
  constructor
  · intro h
    simp [collect_resume, h]
  · intro h0 hlt hlen
    obtain ⟨names, s2, c2, heq, hlen2, hnodup, hfreshAll, hpres, hcard⟩ :=
      gsvFetchPhase_spec img locs pngs content 0
    refine ⟨s2, c2, names.zip locs, ?_, ?_, ?_, hpres, ?_⟩
    · simp only [collect_resume, if_neg (by omega : ¬pngs.card = n), heq]
    · rw [List.length_zip, hlen2]
      omega
    · intro p hp
      exact hfreshAll p.1 (List.of_mem_zip hp).1
    · omega

/-- Witness for C5: directory with artifacts `{0, 1}` (k = 2), target
n = 5, three sampled locations. -/
theorem resume_fetch_witness :
    (0 < ({0, 1} : Finset ℕ).card ∧ ({0, 1} : Finset ℕ).card < 5 ∧
      [10, 20, 30].length = 5 - ({0, 1} : Finset ℕ).card) ∧
    ∃ s2 c2 rows,
      collect_resume (fun x : ℕ => x) 5 {0, 1} (fun _ => 0) [10, 20, 30] =
        some (s2, c2, rows) ∧
      rows.length = 5 - ({0, 1} : Finset ℕ).card ∧
      (∀ p ∈ rows, p.1 ∉ ({0, 1} : Finset ℕ)) ∧
      (∀ i ∈ ({0, 1} : Finset ℕ), c2 i = (fun _ : ℕ => 0) i) ∧
      s2.card = 5 :=
  ⟨⟨by decide, by decide, by decide⟩,
    (resume_fetch (fun x : ℕ => x) 5 {0, 1} (fun _ => 0) [10, 20, 30]).2
      (by decide) (by decide) (by decide)⟩

/-- On `[-90, 90]` the latitude-dependent factor of `metersPerPixel` is
nonnegative. -/
theorem cos_factor_nonneg (L : ℝ) (h1 : -90 ≤ L) (h2 : L ≤ 90) :
    0 ≤ Real.cos (L * Real.pi / 180) := by
  have hpi := Real.pi_pos
  refine Real.cos_nonneg_of_mem_Icc ⟨?_, ?_⟩
  · rw [le_div_iff (by norm_num : (0:ℝ) < 180)]
    nlinarith
  · rw [div_le_iff (by norm_num : (0:ℝ) < 180)]
    nlinarith

/-- C9: for every latitude `L ∈ [-90, 90]`, `metersPerPixel L z`
(`156543.03392 * cos(L*π/180) / 2^z`) is non-increasing as the integer
zoom `z` increases, and non-increasing as `|L|` increases toward 90°. -/
theorem metersPerPixel_monotone :
    (∀ (L : ℝ) (z1 z2 : ℕ), -90 ≤ L → L ≤ 90 → z1 ≤ z2 →
      metersPerPixel L z2 ≤ metersPerPixel L z1) ∧
    (∀ (L1 L2 : ℝ) (z : ℕ), -90 ≤ L1 → L1 ≤ 90 → -90 ≤ L2 → L2 ≤ 90 →
      |L1| ≤ |L2| → metersPerPixel L2 z ≤ metersPerPixel L1 z) := by
  have hpi := Real.pi_pos
  constructor
  · intro L z1 z2 h1 h2 hz
    have hcos := cos_factor_nonneg L h1 h2
    have hnum : 0 ≤ 156543.03392 * Real.cos (L * Real.pi / 180) := by
      nlinarith
    have hpow : (2:ℝ) ^ z1 ≤ 2 ^ z2 :=
      pow_le_pow_right (by norm_num) hz
    have hpos : (0:ℝ) < 2 ^ z1 := by positivity
    exact div_le_div_of_nonneg_left hnum hpos hpow |>.trans_eq rfl
  · intro L1 L2 z h11 h12 h21 h22 habs
    have hx1 : |L1| * Real.pi / 180 = |L1 * Real.pi / 180| := by
      rw [abs_div, abs_mul, abs_of_pos hpi, abs_of_pos (by norm_num : (0:ℝ) < 180)]
    have hx2 : |L2| * Real.pi / 180 = |L2 * Real.pi / 180| := by
      rw [abs_div, abs_mul, abs_of_pos hpi, abs_of_pos (by norm_num : (0:ℝ) < 180)]
    have hcos : Real.cos (L2 * Real.pi / 180) ≤ Real.cos (L1 * Real.pi / 180) := by
      rw [← Real.cos_abs (L1 * Real.pi / 180), ← Real.cos_abs (L2 * Real.pi / 180)]
      rw [← hx1, ← hx2]
      refine Real.cos_le_cos_of_nonneg_of_le_pi ?_ ?_ ?_
      · positivity
      · rw [div_le_iff (by norm_num : (0:ℝ) < 180)]
        have : |L2| ≤ 90 := abs_le.mpr ⟨h21, h22⟩
        nlinarith
      · have h180 : (0:ℝ) < 180 := by norm_num
        rw [div_le_div_iff h180 h180]
        nlinarith
    have hpos : (0:ℝ) < 2 ^ z := by positivity
    rw [metersPerPixel, metersPerPixel, div_le_div_right hpos]
    nlinarith

/-- Witness for C9 at `L = 0` (zooms 1 ≤ 2) and `|0| ≤ |60|` at zoom 1. -/
theorem metersPerPixel_monotone_witness :
    metersPerPixel 0 2 ≤ metersPerPixel 0 1 ∧
    metersPerPixel 60 1 ≤ metersPerPixel 0 1 :=
  ⟨metersPerPixel_monotone.1 0 1 2 (by norm_num) (by norm_num) (by norm_num),
    metersPerPixel_monotone.2 0 60 1 (by norm_num) (by norm_num) (by norm_num)
      (by norm_num)
      (by rw [abs_of_nonneg (le_refl (0:ℝ)),
            abs_of_nonneg (by norm_num : (0:ℝ) ≤ 60)]
          norm_num)⟩

/-- One-step unfolding of `zoomLoop`. -/
theorem zoomLoop_succ (lat P C : ℝ) (fuel z : ℕ) (prev : Option (ℝ × ℝ)) :
    zoomLoop lat P C (fuel + 1) z prev =
      if C < coverage lat P z then
        zoomLoop lat P C fuel (z + 1) (some (prevOf lat P C z))
      else
        match prev with
        | none => none
        | some pr =>
          if (C / coverage lat P z) ^ 2 ≤ pr.1 then some (z, coverage lat P z)
          else some (z - 1, pr.2) := rfl

/-- Running the zoom scan across the zooms whose coverage is still above
the ideal coverage `C` carries it to the break zoom `z0` with the
recorded pair of `z0 - 1`. -/
theorem zoomLoop_reach (lat P C : ℝ) (z0 : ℕ) :
    ∀ d z fuel, z + 1 + d = z0 →
      (∀ w, z + 1 ≤ w → w < z0 → C < coverage lat P w) →
      zoomLoop lat P C (d + (fuel + 1)) (z + 1) (some (prevOf lat P C z)) =
        zoomLoop lat P C (fuel + 1) z0 (some (prevOf lat P C (z0 - 1))) := by
  intro d
  induction d with
  | zero =>
    intro z fuel h0 _
    have hz : z0 = z + 1 := by omega
    subst hz
    simp [Nat.zero_add, Nat.add_sub_cancel]
  | succ d ih =>
    intro z fuel h0 hcont
    have hc : C < coverage lat P (z + 1) := hcont (z + 1) le_rfl (by omega)
    have harith : d + 1 + (fuel + 1) = (d + (fuel + 1)) + 1 := by omega
    rw [harith, zoomLoop_succ, if_pos hc]
    exact ih (z + 1) fuel (by omega) (fun w hw1 hw2 => hcont w (by omega) hw2)

/-- Characterization of the per-latitude zoom selection: if `z0 ∈ [1, 21]`
is the first zoom whose coverage is `≤ C`, then the selection returns
`z0` when the squared ratio of `C` to `coverage z0` is `≤` the squared
ratio of `coverage (z0-1)` to `C` (so also on exact ties), and `z0 - 1`
otherwise. -/
theorem findZoomSingle_char (lat P C : ℝ) (z0 : ℕ) (h1 : 1 ≤ z0)
    (h21 : z0 ≤ 21) (hlow : ∀ w, w < z0 → C < coverage lat P w)
    (hhi : coverage lat P z0 ≤ C) :
    findZoomSingle lat P C =
      if (C / coverage lat P z0) ^ 2 ≤ (coverage lat P (z0 - 1) / C) ^ 2 then
        some (z0, coverage lat P z0)
      else some (z0 - 1, coverage lat P (z0 - 1)) := by
  have h0 : C < coverage lat P 0 := hlow 0 (by omega)
  have step0 : findZoomSingle lat P C =
      zoomLoop lat P C 21 1 (some (prevOf lat P C 0)) := by
    rw [findZoomSingle, show (22:ℕ) = 21 + 1 from rfl, zoomLoop_succ,
      if_pos h0]
  have hreach := zoomLoop_reach lat P C z0 (z0 - 1) 0 (21 - z0) (by omega)
    (fun w _ hw2 => hlow w hw2)
  simp only [Nat.zero_add] at hreach
  have hfuel : (z0 - 1) + ((21 - z0) + 1) = 21 := by omega
  rw [hfuel] at hreach
  rw [step0, hreach, zoomLoop_succ, if_neg (not_lt.mpr hhi)]
  rfl

/-- At latitude 0 the coverage for pixel width 1 is an explicit rational
multiple of a power of two. -/
theorem coverage_equator (z : ℕ) :
    coverage 0 1 z = 156543.03392 / 2 ^ z / 1000 := by
  rw [coverage, metersPerPixel, zero_mul, zero_div, Real.cos_zero]
  ring

/-- At latitude 0, pixel width 1 and ideal coverage 5, every zoom below 5
still covers more than 5 km. -/
theorem coverage_equator_low : ∀ w, w < 5 → (5:ℝ) < coverage 0 1 w := by
  intro w hw
  rw [coverage_equator w]
  interval_cases w <;> norm_num

/-- At latitude 0 and pixel width 1, zoom 5 covers at most 5 km. -/
theorem coverage_equator_hi : coverage 0 1 5 ≤ 5 := by
  rw [coverage_equator 5]
  norm_num

/-- C2 counterexample: at latitude 0, pixel width 1, ideal coverage
`C = 5` (which is bracketed within zooms 0..21), `find_zoom_level`'s
per-latitude selection returns zoom 5, whose coverage
`156543.03392/32/1000 ≈ 4.89 km` is `< C`; the coverage at zoom 6
(`≈ 2.45 km`) is also `< C`.  Hence the returned zoom's coverage and the
coverage at zoom+1 do not bracket `C` (neither is `≥ C`), contradicting
the claim.  (The bracketing pair is zoom 4 and zoom 5; the claim's
bracket reading only matches when the coarser candidate is returned.) -/
theorem find_zoom_level_claim_false :
    findZoomSingle 0 1 5 = some (5, coverage 0 1 5) ∧
    coverage 0 1 5 < 5 ∧ coverage 0 1 6 < 5 := by
  have hchar := findZoomSingle_char 0 1 5 5 (by omega) (by omega)
    coverage_equator_low coverage_equator_hi
  have hcase : ((5:ℝ) / coverage 0 1 5) ^ 2 ≤ (coverage 0 1 (5 - 1) / 5) ^ 2 := by
    rw [coverage_equator 5, coverage_equator (5 - 1)]
    norm_num
  refine ⟨?_, by rw [coverage_equator 5]; norm_num,
    by rw [coverage_equator 6]; norm_num⟩
  rw [hchar, if_pos hcase]

/-- C2 (amended): under the claim's hypotheses (some zoom in [0,21]
brackets the ideal coverage `C`; `z0` is the first zoom whose coverage is
`≤ C`), the returned zoom is one of the two bracketing candidates `z0-1`
and `z0` — so the returned zoom's coverage and the coverage of the *other
bracketing candidate* bracket `C` (one `> C`, one `≤ C`) — and it is the
candidate closer to `C` by squared ratio; when the two candidates are
exactly equally close, the smaller-coverage (finer, larger-zoom)
candidate `z0` is chosen, not the coarser one. -/
theorem find_zoom_level_selection (lat P C : ℝ) (z0 : ℕ) (h1 : 1 ≤ z0)
    (h21 : z0 ≤ 21) (hlow : ∀ w, w < z0 → C < coverage lat P w)
    (hhi : coverage lat P z0 ≤ C) :
    (C < coverage lat P (z0 - 1) ∧ coverage lat P z0 ≤ C) ∧
    ((C / coverage lat P z0) ^ 2 ≤ (coverage lat P (z0 - 1) / C) ^ 2 →
      findZoomSingle lat P C = some (z0, coverage lat P z0)) ∧
    ((coverage lat P (z0 - 1) / C) ^ 2 < (C / coverage lat P z0) ^ 2 →
      findZoomSingle lat P C = some (z0 - 1, coverage lat P (z0 - 1))) := by
  refine ⟨⟨hlow (z0 - 1) (by omega), hhi⟩, ?_, ?_⟩
  · intro hcase
    rw [findZoomSingle_char lat P C z0 h1 h21 hlow hhi, if_pos hcase]
  · intro hcase
    rw [findZoomSingle_char lat P C z0 h1 h21 hlow hhi,
      if_neg (not_le.mpr hcase)]

/-- Witness for C2's amended theorem at latitude 0, pixel width 1,
`C = 5`, `z0 = 5`. -/
theorem find_zoom_level_selection_witness :
    (1 ≤ 5 ∧ 5 ≤ 21 ∧ (∀ w, w < 5 → (5:ℝ) < coverage 0 1 w) ∧
      coverage 0 1 5 ≤ 5) ∧
    (((5:ℝ) < coverage 0 1 (5 - 1) ∧ coverage 0 1 5 ≤ 5) ∧
      (((5:ℝ) / coverage 0 1 5) ^ 2 ≤ (coverage 0 1 (5 - 1) / 5) ^ 2 →
        findZoomSingle 0 1 5 = some (5, coverage 0 1 5)) ∧
      ((coverage 0 1 (5 - 1) / 5) ^ 2 < ((5:ℝ) / coverage 0 1 5) ^ 2 →
        findZoomSingle 0 1 5 = some (5 - 1, coverage 0 1 (5 - 1)))) :=
  ⟨⟨by omega, by omega, coverage_equator_low, coverage_equator_hi⟩,
    find_zoom_level_selection 0 1 5 5 (by omega) (by omega)
      coverage_equator_low coverage_equator_hi⟩

/-- Folding index-writes over pairs whose indices all differ from `i`
leaves position `i` unchanged. -/
theorem foldl_set_untouched {α β : Type} (g : α → β) :
    ∀ (ps : List (α × ℕ)) (init : List β) (i : ℕ),
      (∀ p ∈ ps, p.2 ≠ i) →
      (ps.foldl (fun acc p => acc.set p.2 (g p.1)) init).get? i =
        init.get? i := by
  intro ps
  induction ps with
  | nil => intro init i _; rfl
  | cons q rest ih =>
    intro init i h
    rw [List.foldl_cons,
      ih (init.set q.2 (g q.1)) i (fun p hp => h p (List.mem_cons_of_mem q hp))]
    exact List.get?_set_ne _ _ (h q (List.mem_cons_self q rest))

/-- Folding index-writes over pairs with pairwise distinct indices puts
`g v` at position `i` whenever `(v, i)` is among the pairs. -/
theorem foldl_set_get {α β : Type} (g : α → β) :
    ∀ (ps : List (α × ℕ)) (init : List β) (v : α) (i : ℕ),
      (ps.map Prod.snd).Nodup → (v, i) ∈ ps → i < init.length →
      (ps.foldl (fun acc p => acc.set p.2 (g p.1)) init).get? i =
        some (g v) := by
  intro ps
  induction ps with
  | nil => intro init v i _ hmem _; simp at hmem
  | cons q rest ih =>
    intro init v i hnodup hmem hlen
    have hnodup2 : (q.2 ∉ rest.map Prod.snd) ∧ (rest.map Prod.snd).Nodup := by
      rw [List.map_cons] at hnodup
      exact List.nodup_cons.mp hnodup
    rw [List.foldl_cons]
    rcases List.mem_cons.mp hmem with heq | hmem2
    · subst heq
      have hnotin : ∀ p ∈ rest, p.2 ≠ i := by
        intro p hp hpi
        apply hnodup2.1
        simpa [hpi] using List.mem_map_of_mem Prod.snd hp
      rw [foldl_set_untouched g rest _ i hnotin]
      exact List.get?_set_eq_of_lt (g v) hlen
    · have hne : q.2 ≠ i := by
        intro hcon
        apply hnodup2.1
        rw [hcon]
        simpa using List.mem_map_of_mem Prod.snd hmem2
      exact ih (init.set q.2 (g q.1)) v i hnodup2.2 hmem2 (by simpa using hlen)

/-- C10: `find_zoom_level` returns its results in the original input
order: although the latitudes are processed in ascending sorted order,
entry `i` of the output is the per-latitude result for input latitude
`i`.  The hypothesis `hdom` (each latitude's ideal coverage is bracketed
within zooms 0..21) confines the statement to the domain where the Python
inner loop is self-contained (no uninitialized/stale `ratio` variables),
which is where the model is faithful. -/
theorem find_zoom_level_order (lats : List ℝ) (C P : ℝ)
    (hdom : ∀ lat ∈ lats, C < coverage lat P 0 ∧ coverage lat P 21 ≤ C)
    (i : ℕ) (hi : i < lats.length) :
    (find_zoom_level lats C P).get? i =
      some (findZoomSingle lats[i] P C) := by
  have hlen : (lats.zip (List.range lats.length)).length = lats.length := by
    simp
  have hi2 : i < (lats.zip (List.range lats.length)).length := by omega
  have hval : (lats.zip (List.range lats.length))[i] = (lats[i], i) := by
    simp [List.getElem_zip]
  have hmem : (lats[i], i) ∈ lats.zip (List.range lats.length) :=
    hval ▸ List.getElem_mem hi2
  have hperm : List.Perm ((lats.zip (List.range lats.length)).insertionSort
      (fun a b => a.1 ≤ b.1)) (lats.zip (List.range lats.length)) :=
    List.perm_insertionSort _ _
  have hmemS : (lats[i], i) ∈ (lats.zip (List.range lats.length)).insertionSort
      (fun a b => a.1 ≤ b.1) := hperm.mem_iff.mpr hmem
  have hsnd : (((lats.zip (List.range lats.length)).insertionSort
      (fun a b => a.1 ≤ b.1)).map Prod.snd).Nodup := by
    have h2 : (lats.zip (List.range lats.length)).map Prod.snd =
        List.range lats.length := List.map_snd_zip _ _ (by simp)
    rw [(hperm.map Prod.snd).nodup_iff, h2]
    exact List.nodup_range _
  rw [find_zoom_level]
  exact foldl_set_get (fun lat => findZoomSingle lat P C) _ _ lats[i] i hsnd
    hmemS (by simpa using hi)

/-- At latitude 60 the coverage for pixel width 1 is an explicit rational
multiple of a power of two (`cos(60°) = 1/2`). -/
theorem coverage_sixty (z : ℕ) :
    coverage 60 1 z = 156543.03392 / 2 / 2 ^ z / 1000 := by
  rw [coverage, metersPerPixel,
    show (60:ℝ) * Real.pi / 180 = Real.pi / 3 by ring,
    Real.cos_pi_div_three]
  ring

/-- Witness for C10 on the unsorted latitude list `[60, 0]` with ideal
coverage 5 and pixel width 1: entry 0 of the output is the result for
latitude 60 (the second-smallest), not for the first latitude processed. -/
theorem find_zoom_level_order_witness :
    (∀ lat ∈ [(60:ℝ), 0], (5:ℝ) < coverage lat 1 0 ∧ coverage lat 1 21 ≤ 5) ∧
    (find_zoom_level [(60:ℝ), 0] 5 1).get? 0 =
      some (findZoomSingle 60 1 5) := by
  have hdom : ∀ lat ∈ [(60:ℝ), 0],
      (5:ℝ) < coverage lat 1 0 ∧ coverage lat 1 21 ≤ 5 := by
    intro lat hl
    rcases List.mem_cons.mp hl with h | h
    · subst h
      rw [coverage_sixty 0, coverage_sixty 21]
      norm_num
    · have h0 : lat = 0 := by simpa using h
      subst h0
      rw [coverage_equator 0, coverage_equator 21]
      norm_num
  exact ⟨hdom, find_zoom_level_order [(60:ℝ), 0] 5 1 hdom 0 (by norm_num)⟩

/-- The distance range check on a singleton evaluates to `false` for an
in-range distance. -/
theorem any_dist_false (x : ℝ) (hx : x ≤ 40075 / 2) :
    ([x].any (fun y => decide ((40075 : ℝ) / 2 < y))) = false := by
  rw [List.any_cons, List.any_nil, Bool.or_false, decide_eq_false_iff_not]
  exact not_lt.mpr hx

/-- The bearing range check on a singleton evaluates to `false` for an
in-range bearing. -/
theorem any_dir_false (t : ℝ) (h0 : 0 ≤ t) (h2 : t ≤ 2 * Real.pi) :
    ([t].any (fun u => decide (u < 0 ∨ 2 * Real.pi < u))) = false := by
  rw [List.any_cons, List.any_nil, Bool.or_false, decide_eq_false_iff_not]
  rintro (h | h)
  · exact absurd h (not_lt.mpr h0)
  · exact absurd h (not_lt.mpr h2)

/-- Python float `%` with a positive modulus lands in `[0, y)`. -/
theorem realMod_nonneg_lt (x y : ℝ) (hy : 0 < y) :
    0 ≤ realMod x y ∧ realMod x y < y := by
  have hne : y ≠ 0 := ne_of_gt hy
  have hfr : realMod x y = y * Int.fract (x / y) := by
    rw [realMod, Int.fract, mul_sub, mul_div_cancel₀ _ hne]
  constructor
  · rw [hfr]
    exact mul_nonneg (le_of_lt hy) (Int.fract_nonneg _)
  · rw [hfr]
    calc y * Int.fract (x / y) < y * 1 :=
          mul_lt_mul_of_pos_left (Int.fract_lt_one _) hy
      _ = y := mul_one y

/-- The latitude produced by the geodesic formula, in degrees, lies in
`[-90, 90]` (the range of `arcsin` scaled by `180/π`). -/
theorem deg_arcsin_bounds (u : ℝ) :
    -90 ≤ Real.arcsin u * 180 / Real.pi ∧
      Real.arcsin u * 180 / Real.pi ≤ 90 := by
  have hpi := Real.pi_pos
  constructor
  · rw [le_div_iff hpi]
    have := Real.neg_pi_div_two_le_arcsin u
    linarith
  · rw [div_le_iff hpi]
    have := Real.arcsin_le_pi_div_two u
    linarith

/-- The longitude produced by the geodesic formula, in degrees, lies in
`[-180, 180)` (Python `%` lands in `[0, 2π)`, so the radian longitude is
in `[-π, π)`). -/
theorem deg_mod_bounds (t : ℝ) :
    -180 ≤ (realMod t (2 * Real.pi) - Real.pi) * 180 / Real.pi ∧
      (realMod t (2 * Real.pi) - Real.pi) * 180 / Real.pi < 180 := by
  have hpi := Real.pi_pos
  obtain ⟨hm0, hm2⟩ := realMod_nonneg_lt t (2 * Real.pi) (by positivity)
  constructor
  · rw [le_div_iff hpi]
    linarith
  · rw [div_lt_iff hpi]
    linarith

/-- Each destination produced by the geodesic core has latitude in
`[-90, 90]` and longitude in `[-180, 180)`. -/
theorem destPair_range (p : ℝ × ℝ) (dKm tc : ℝ) :
    -90 ≤ (destPair p dKm tc).1 ∧ (destPair p dKm tc).1 ≤ 90 ∧
    -180 ≤ (destPair p dKm tc).2 ∧ (destPair p dKm tc).2 < 180 :=
  ⟨(deg_arcsin_bounds _).1, (deg_arcsin_bounds _).2,
    (deg_mod_bounds _).1, (deg_mod_bounds _).2⟩

/-- Every element of a `zipWith` is an application of the combining
function. -/
theorem zipWith_mem_cases {α β γ : Type} (f : α → β → γ) :
    ∀ (l1 : List α) (l2 : List β) (c : γ), c ∈ List.zipWith f l1 l2 →
      ∃ a b, c = f a b := by
  intro l1
  induction l1 with
  | nil => intro l2 c h; simp at h
  | cons a as ih =>
    intro l2 c h
    cases l2 with
    | nil => simp at h
    | cons b bs =>
      rw [List.zipWith_cons_cons] at h
      rcases List.mem_cons.mp h with h | h
      · exact ⟨a, b, h⟩
      · exact ih bs c h

/-- C7 (amended): every Location produced by a successful `get_lat_lon`
run has latitude in `[-90, 90]` and longitude normalized to the
half-open interval `[-180, 180)` — the longitude can be exactly `-180`
and is never `+180` (Python `%` with positive modulus lands in
`[0, 2π)`), so the claimed interval `(-180, 180]` has its closed end on
the wrong side. -/
theorem get_lat_lon_location_range (loc : ScalarOrList (ℝ × ℝ))
    (d tc : ScalarOrList ℝ) (res : List (ℝ × ℝ))
    (h : get_lat_lon loc d tc = .ok res) :
    ∀ q ∈ res, -90 ≤ q.1 ∧ q.1 ≤ 90 ∧ -180 ≤ q.2 ∧ q.2 < 180 := by
  intro q hq
  cases hbe : broadcastArgs loc d tc with
  | error e =>
    simp only [get_lat_lon, hbe] at h
    exact absurd h (by simp)
  | ok v =>
    obtain ⟨locB, dl, tl⟩ := v
    simp only [get_lat_lon, hbe] at h
    split_ifs at h
    cases locB with
    | scalar a => simp at h
    | list ll =>
      cases ll with
      | nil => simp at h
      | cons p ps =>
        simp only [Except.ok.injEq] at h
        rw [← h] at hq
        obtain ⟨a, b, hc⟩ := zipWith_mem_cases _ _ _ q hq
        rw [hc]
        exact destPair_range a b.1 b.2

/-- Evaluation `arctan2 0 1 = 0` (the positive real axis). -/
theorem arctan2_zero_one : arctan2 0 1 = 0 := by
  rw [arctan2]
  simp [Complex.ofReal_zero, Complex.ofReal_one, Complex.arg_one]

/-- Evaluation of the modulus: `(2π) % (2π) = 0`. -/
theorem realMod_two_pi : realMod (2 * Real.pi) (2 * Real.pi) = 0 := by
  have hne : (2 * Real.pi) ≠ 0 := by positivity
  rw [realMod, div_self hne]
  simp [Int.floor_one]

/-- Unfolding of `destPair` with the intermediate variables substituted. -/
theorem destPair_def (p : ℝ × ℝ) (dKm tc : ℝ) :
    destPair p dKm tc =
      (Real.arcsin (Real.sin (p.1 * Real.pi / 180) * Real.cos (dKm / 6371) +
        Real.cos (p.1 * Real.pi / 180) * Real.sin (dKm / 6371) * Real.cos tc) *
        180 / Real.pi,
      (realMod (p.2 * Real.pi / 180 -
        arctan2 (Real.sin tc * Real.sin (dKm / 6371) *
            Real.cos (p.1 * Real.pi / 180))
          (Real.cos (dKm / 6371) - Real.sin (p.1 * Real.pi / 180) *
            Real.sin (Real.arcsin (Real.sin (p.1 * Real.pi / 180) *
              Real.cos (dKm / 6371) + Real.cos (p.1 * Real.pi / 180) *
              Real.sin (dKm / 6371) * Real.cos tc))) +
        Real.pi) (2 * Real.pi) - Real.pi) * 180 / Real.pi) := rfl

/-- The geodesic destination of origin `(0°, 180°)` with distance 0 and
bearing 0 is `(0°, -180°)`: the antimeridian is reported as longitude
`-180`, outside `(-180, 180]`. -/
theorem destPair_antimeridian : destPair ((0:ℝ), 180) 0 0 = (0, -180) := by
  have hpi := Real.pi_pos
  have hne : Real.pi ≠ 0 := ne_of_gt hpi
  rw [destPair_def]
  rw [Prod.mk.injEq]
  constructor
  · simp [Real.sin_zero, Real.cos_zero, Real.arcsin_zero]
  · have harg1 : Real.sin 0 * Real.sin ((0:ℝ) / 6371) *
        Real.cos ((0:ℝ) * Real.pi / 180) = 0 := by
      simp [Real.sin_zero]
    have harg2 : Real.cos ((0:ℝ) / 6371) - Real.sin ((0:ℝ) * Real.pi / 180) *
        Real.sin (Real.arcsin (Real.sin ((0:ℝ) * Real.pi / 180) *
          Real.cos ((0:ℝ) / 6371) + Real.cos ((0:ℝ) * Real.pi / 180) *
          Real.sin ((0:ℝ) / 6371) * Real.cos 0)) = 1 := by
      simp [Real.sin_zero, Real.cos_zero]
    rw [harg1, harg2, arctan2_zero_one]
    rw [show (180:ℝ) * Real.pi / 180 = Real.pi by ring]
    rw [show Real.pi - 0 + Real.pi = 2 * Real.pi by ring]
    rw [realMod_two_pi]
    field_simp
    ring

/-- C7 counterexample: `get_lat_lon` at the valid input origin
`(0, 180)`, distance 0 km, bearing 0 produces the Location `(0, -180)`,
whose longitude `-180` is NOT in the claimed normalization interval
`(-180, 180]`. -/
theorem location_invariant_claim_false :
    get_lat_lon (.list [((0:ℝ), 180)]) (.list [0]) (.list [0]) =
      .ok [((0:ℝ), -180)] ∧ (-180:ℝ) ∉ Set.Ioc (-180:ℝ) 180 := by
  constructor
  · have hb : broadcastArgs (.list [((0:ℝ), 180)]) (.list [0]) (.list [0]) =
        .ok (.list [((0:ℝ), 180)], [0], [0]) := rfl
    simp only [get_lat_lon, hb]
    rw [any_dist_false 0 (by norm_num),
      any_dir_false 0 le_rfl (by positivity)]
    show Except.ok [destPair ((0:ℝ), 180) 0 0] =
      Except.ok [((0:ℝ), -180)]
    rw [destPair_antimeridian]
  · simp

/-- Witness for C7's amended theorem: a successful singleton run at the
origin `(0, 0)` with distance 0 and bearing 0. -/
theorem get_lat_lon_location_range_witness :
    (get_lat_lon (.list [((0:ℝ), 0)]) (.list [0]) (.list [0]) =
      .ok [destPair ((0:ℝ), 0) 0 0]) ∧
    ∀ q ∈ [destPair ((0:ℝ), 0) 0 0],
      -90 ≤ q.1 ∧ q.1 ≤ 90 ∧ -180 ≤ q.2 ∧ q.2 < 180 := by
  have h : get_lat_lon (.list [((0:ℝ), 0)]) (.list [0]) (.list [0]) =
      .ok [destPair ((0:ℝ), 0) 0 0] := by
    have hb : broadcastArgs (.list [((0:ℝ), 0)]) (.list [0]) (.list [0]) =
        .ok (.list [((0:ℝ), 0)], [0], [0]) := rfl
    simp only [get_lat_lon, hb]
    rw [any_dist_false 0 (by norm_num),
      any_dir_false 0 le_rfl (by positivity)]
    rfl
  exact ⟨h, get_lat_lon_location_range _ _ _ _ h⟩

/-- C6: the code raises on its own documented scalar inputs.  With the
valid all-scalar arguments `loc = "40.714728,-73.998672"`, `d = 1.0`,
`tc = 0.0` (in-range distance and bearing, matching "lengths"), the
broadcast step wraps `d` and `tc` in singleton lists but leaves `loc` a
raw string (street_view.py lines 118-120), so line 131 iterates the
location string character-by-character and raises `ValueError` — the
function does not return normally as the claim (and the function's own
docstring, which documents `loc: str`, `d: float`, `tc: float`)
requires. -/
theorem get_lat_lon_scalar_raises :
    get_lat_lon (.scalar ((40.714728 : ℝ), -73.998672)) (.scalar 1)
      (.scalar 0) = .error .parse := by
  have hb : broadcastArgs (.scalar ((40.714728 : ℝ), -73.998672)) (.scalar 1)
      (.scalar 0) = .ok (.scalar ((40.714728 : ℝ), -73.998672), [1], [0]) :=
    rfl
  simp only [get_lat_lon, hb]
  rw [any_dist_false 1 (by norm_num),
    any_dir_false 0 le_rfl (by positivity)]
  rfl
